import Mathlib

/-!
Verification of the metric-exposition parser and cardinality estimator of
the `good_telemetry` repository.

The Lean definitions below are a shallow embedding of:
  * `internal/metrics/parser.go` — `Parse`, `parseLine`, `parseLabels`,
    `splitLabels` and the two recognizer regexes;
  * the cardinality calculator (`Analyze`, `highCardinalityPatterns`,
    thresholds, warning messages).

Go `map` values are modelled as association lists (`List (String × String)`
resp. `List (String × List String)`); map iteration order in Go is
unspecified, so every theorem below states only order-independent facts
(counts, products, membership), or quantifies over permutations where the
order could matter (the pattern table).  Distinct-value counts are `Nat`
(Go `len` is non-negative and bounded by the input's length).  The
estimator's accumulators — `EstimatedSeries` (Go `int`, 64-bit on the
targeted platforms) and `MemoryEstimateBytes` (`int64`) — are modelled as
`Int` reduced by an explicit `wrap64` into 64-bit two's-complement at
every operation Go performs in machine arithmetic, so overflow behaves as
in the program (the running product wraps at `2^63`, reachable with ~63
two-valued labels).  The float-formatted human-readable size string
(`formatBytes`) is not modelled; no claim touches it.
-/

namespace GT

/-- Character class `[a-zA-Z_:]` — the first character of a metric name in
both recognizer regexes. -/
def isNameStart (c : Char) : Bool :=
  (c.isAlpha || c = '_' || c = ':')

/-- Character class `[a-zA-Z0-9_:]` — subsequent characters of a metric name. -/
def isNameChar (c : Char) : Bool :=
  (c.isAlphanum || c = '_' || c = ':')

/-- Character class `[0-9.eE+-]` — the value token of both regexes. -/
def isValueChar (c : Char) : Bool :=
  (c.isDigit || c = '.' || c = 'e' || c = 'E' || c = '+' || c = '-')

/-- RE2's `\s`: `[\t\n\f\r ]`. -/
def isReSpace (c : Char) : Bool :=
  (c = ' ' || c = '\t' || c = '\n' || c = '\x0c' || c = '\r')

/-- Go `unicode.IsSpace` restricted to ASCII, as used by `strings.TrimSpace`. -/
def isGoSpace (c : Char) : Bool :=
  (c = ' ' || c = '\t' || c = '\n' || c = '\x0b' || c = '\x0c' || c = '\r')

/-- Go `strings.TrimSpace` on a character list. -/
def trimSpace (cs : List Char) : List Char :=
  ((cs.dropWhile isGoSpace).reverse.dropWhile isGoSpace).reverse

/-- Go `strings.Trim(s, "\x22")`: strip all leading and trailing quote characters. -/
def trimQuotes (cs : List Char) : List Char :=
  ((cs.dropWhile (· = '"')).reverse.dropWhile (· = '"')).reverse

/-- Go `strings.Split(s, "\n")`: accumulator-passing worker. -/
def splitNlGo : List Char → List Char → List String
  | [], cur => [String.mk cur.reverse]
  | '\n' :: rest, cur => String.mk cur.reverse :: splitNlGo rest []
  | c :: rest, cur => splitNlGo rest (c :: cur)

/-- Go `strings.Split(s, "\n")`. -/
def splitNl (cs : List Char) : List String :=
  splitNlGo cs []

/-- The match of `metricWithLabelsRegex` =
`^([a-zA-Z_:][a-zA-Z0-9_:]*)\{([^}]*)\}(?:\s+([0-9.eE+-]+))?` against the
start of the line.  The regex is anchored only on the left, so any text
after the matched region is ignored.  Each greedy sub-pattern is followed
by a character class disjoint from it, so the RE2 match is equivalent to
taking maximal runs, which is what this function does.  Returns
`(name, label body, optional value)` on success. -/
def matchWithLabels (cs : List Char) : Option (String × String × Option String) :=
  match cs with
  | [] => none
  | c :: rest =>
    if isNameStart c then
      let nameRest := rest.takeWhile isNameChar
      match rest.dropWhile isNameChar with
      | '{' :: r2 =>
        let body := r2.takeWhile (· ≠ '}')
        match r2.dropWhile (· ≠ '}') with
        | '}' :: r3 =>
          let ws := r3.takeWhile isReSpace
          let v := (r3.dropWhile isReSpace).takeWhile isValueChar
          let value := if ws ≠ [] ∧ v ≠ [] then some (String.mk v) else none
          some (String.mk (c :: nameRest), String.mk body, value)
        | _ => none
      | _ => none
    else none

/-- The match of `simpleMetricRegex` =
`^([a-zA-Z_:][a-zA-Z0-9_:]*)(?:\s+([0-9.eE+-]+))?$` — anchored on both
sides.  Returns `(name, optional value)` on success. -/
def matchSimple (cs : List Char) : Option (String × Option String) :=
  match cs with
  | [] => none
  | c :: rest =>
    if isNameStart c then
      let nameRest := rest.takeWhile isNameChar
      match rest.dropWhile isNameChar with
      | [] => some (String.mk (c :: nameRest), none)
      | after =>
        let ws := after.takeWhile isReSpace
        let v := (after.dropWhile isReSpace).takeWhile isValueChar
        let tail := (after.dropWhile isReSpace).dropWhile isValueChar
        if ws ≠ [] ∧ v ≠ [] ∧ tail = [] then
          some (String.mk (c :: nameRest), some (String.mk v))
        else none
    else none

/-- The `splitLabels` loop: quote-aware comma split.  `inQuotes` toggles on
each `"`; a comma outside quotes ends the current segment (dropped when
empty, exactly as the Go code checks `current.Len() > 0`). -/
def splitLabelsGo : List Char → Bool → List Char → List (List Char)
  | [], _, current =>
    if current = [] then [] else [current.reverse]
  | c :: rest, inQuotes, current =>
    if c = '"' then splitLabelsGo rest (!inQuotes) (c :: current)
    else if c = ',' then
      if inQuotes then splitLabelsGo rest inQuotes (c :: current)
      else if current = [] then splitLabelsGo rest inQuotes []
      else current.reverse :: splitLabelsGo rest inQuotes []
    else splitLabelsGo rest inQuotes (c :: current)

/-- Function `splitLabels` from `parser.go`. -/
def splitLabels (cs : List Char) : List (List Char) :=
  splitLabelsGo cs false []

/-- A decoded label set: Go's `map[string]string` as an association list
with unique keys (assignment overwrites). -/
abbrev Labels := List (String × String)

/-- Go `labels[key] = value`: overwrite an existing key or add a new one. -/
def insertLabel (labels : Labels) (k v : String) : Labels :=
  if labels.any (·.1 == k) then
    labels.map (fun p => if p.1 == k then (p.1, v) else p)
  else labels ++ [(k, v)]

/-- The parser's error values.  `invalidLabelSyntax` is
`"invalid label format: %s"` (carrying the offending segment);
`invalidFormat` is `"invalid metric format: %s"` (carrying the line). -/
inductive ParseErr where
  | invalidLabelSyntax (pair : String)
  | invalidFormat (line : String)
deriving DecidableEq, Repr

/-- Go `strings.SplitN(pair, "=", 2)` followed by the length-2 check: split a
segment at its first `=`, or `none` when it has no `=`. -/
def splitEq (cs : List Char) : Option (List Char × List Char) :=
  if cs.contains '=' then
    some (cs.takeWhile (· ≠ '='), ((cs.dropWhile (· ≠ '=')).tail))
  else none

/-- The loop body of `parseLabels`: key is `TrimSpace(parts[0])`, value is
`Trim(TrimSpace(parts[1]), "\x22")`. -/
def parseLabelsGo : List (List Char) → Labels → Except ParseErr Labels
  | [], labels => .ok labels
  | pair :: rest, labels =>
    match splitEq pair with
    | none => .error (.invalidLabelSyntax (String.mk pair))
    | some (k, v) =>
      parseLabelsGo rest
        (insertLabel labels (String.mk (trimSpace k)) (String.mk (trimQuotes (trimSpace v))))

/-- Function `parseLabels` from `parser.go`. -/
def parseLabels (labelStr : String) : Except ParseErr Labels :=
  if labelStr = "" then .ok []
  else parseLabelsGo (splitLabels labelStr.toList) []

/-- One decoded sample (`Metric` in `parser.go`). -/
structure Metric where
  name : String
  labels : Labels
  value : String
  raw : String
deriving DecidableEq, Repr

/-- Function `parseLine` from `parser.go`: try the with-labels regex first; if it
matches, the label body must parse (else the label error is returned
without trying the simple form); otherwise try the simple regex; if
neither matches, `invalidFormat`.  An absent value defaults to `"0"`. -/
def parseLine (line : String) : Except ParseErr Metric :=
  match matchWithLabels line.toList with
  | some (name, body, v) =>
    match parseLabels body with
    | .ok labels => .ok ⟨name, labels, v.getD "0", line⟩
    | .error e => .error e
  | none =>
    match matchSimple line.toList with
    | some (name, v) => .ok ⟨name, [], v.getD "0", line⟩
    | none => .error (.invalidFormat line)

/-- The top-level errors of `Parse`: a line error wrapped as
`"line %d: %w"` (1-based index into the lines of the trimmed input), or
`"no valid metrics found"`. -/
inductive TopErr where
  | lineError (lineNo : Nat) (e : ParseErr)
  | noValidMetrics
deriving DecidableEq, Repr

/-- Go `strings.HasPrefix(line, "#")` on a character list. -/
def hasPrefixHash : List Char → Bool
  | '#' :: _ => true
  | _ => false

/-- The loop of `Parse`: lines are individually trimmed; blank lines and
lines starting with `#` are skipped; the first failing line aborts with
its 1-based number `i`. -/
def parseAll : List String → Nat → Except TopErr (List Metric)
  | [], _ => .ok []
  | line :: rest, i =>
    if String.mk (trimSpace line.toList) = "" ∨
        hasPrefixHash (trimSpace line.toList) = true then
      parseAll rest (i + 1)
    else
      match parseLine (String.mk (trimSpace line.toList)) with
      | .error e => .error (.lineError i e)
      | .ok m => (parseAll rest (i + 1)).map (m :: ·)

/-- The skip test of `Parse`'s loop: the trimmed line is blank or a
comment. -/
def skipLine (line : String) : Bool :=
  decide (String.mk (trimSpace line.toList) = "") ||
    hasPrefixHash (trimSpace line.toList)

/-! ## Cardinality calculator -/

/-- Reduction of an integer into Go's 64-bit two's-complement range
`[-2^63, 2^63)`.  `EstimatedSeries` is a Go `int` (64-bit on the targeted
platforms) and `MemoryEstimateBytes` an `int64`; both wrap silently on
overflow, which this function makes explicit. -/
def wrap64 (n : Int) : Int :=
  (n + 2 ^ 63) % 2 ^ 64 - 2 ^ 63

/-- Constant `memoryPerSeriesBytes = 3000`. -/
def memoryPerSeriesBytes : Int := 3000

/-- Constant `lowCardinalityThreshold = 100`. -/
def lowCardinalityThreshold : Int := 100

/-- Constant `mediumCardinalityThreshold = 1000`. -/
def mediumCardinalityThreshold : Int := 1000

/-- Constant `highCardinalityThreshold = 10000`. -/
def highCardinalityThreshold : Int := 10000

/-- Table `highCardinalityPatterns`, one entry per row.  Each Go regex is
`(?i)^( ... )$` over an alternation in which every branch is a fixed word
with at most one optional `_`, so its language is the finite word set
listed here (lower-cased; `(?i)` is modelled by lower-casing the matched
name).  In Go the table is a `map`, whose iteration order is unspecified;
this list fixes the source-text order, and the permutation theorem below
shows the order cannot matter. -/
def highCardinalityPatterns : List (String × List String) :=
  [ ("user_id", ["userid", "user_id", "username", "user_name"]),
    ("email", ["email", "e_mail"]),
    ("ip_address", ["ipaddr", "ip_addr", "ipaddress", "ip_address", "clientip", "client_ip"]),
    ("timestamp", ["timestamp", "ts", "epoch", "unixtime", "unix_time",
                   "createdat", "created_at", "updatedat", "updated_at"]),
    ("uuid", ["uuid", "guid"]),
    ("session", ["sessionid", "session_id", "session"]),
    ("trace_id", ["traceid", "trace_id", "spanid", "span_id", "requestid", "request_id"]),
    ("url_path", ["path", "url", "uri"]),
    ("inode", ["inode", "fileid", "file_id", "fd"]),
    ("volume", ["vol", "volume", "volumeid", "volume_id", "disk", "diskid", "disk_id"]) ]

/-- ASCII lower-casing of one character (`(?i)` folds `A`–`Z` onto
`a`–`z`; every pattern word is lowercase ASCII, so this captures Go's
case-insensitive matching here). -/
def lowerChar (c : Char) : Char :=
  if 'A' ≤ c ∧ c ≤ 'Z' then Char.ofNat (c.toNat + 32) else c

/-- ASCII lower-casing of a string. -/
def lowerStr (s : String) : String :=
  String.mk (s.toList.map lowerChar)

/-- Go `pattern.MatchString(labelName)` for one table row: case-insensitive
membership in the row's finite language. -/
def patternMatches (alts : List String) (name : String) : Bool :=
  decide (lowerStr name ∈ alts)

/-- The pattern loop over a given table order: the first row whose regex
matches wins (`break`), yielding its tag. -/
def classifyWith (table : List (String × List String)) (name : String) :
    Option String :=
  (table.find? (fun row => patternMatches row.2 name)).map (·.1)

/-- The label index `labelCounts : map[string]map[string]bool` as an
association list from label name to the list of distinct values seen
(no duplicates, by construction of `insertValue`). -/
abbrev Index := List (String × List String)

/-- Adding value `v` to an existing key-`k` entry (the inner
`labelCounts[key][value] = true` when the key is already present). -/
def upd (k v : String) (p : String × List String) : String × List String :=
  if p.1 == k then (p.1, if p.2.contains v then p.2 else p.2 ++ [v]) else p

/-- Go `labelCounts[key][value] = true` (allocating the inner set on first use). -/
def insertValue (idx : Index) (k v : String) : Index :=
  if idx.any (·.1 == k) then idx.map (upd k v) else idx ++ [(k, [v])]

/-- Whether value `v` is already recorded for key `k` (map lookup). -/
def valueSeen : Index → String → String → Bool
  | [], _, _ => false
  | p :: t, k, v => if p.1 == k then p.2.contains v else valueSeen t k v

/-- The inner loop over one sample's labels. -/
def insertSample (idx : Index) (labels : Labels) : Index :=
  labels.foldl (fun i kv => insertValue i kv.1 kv.2) idx

/-- The double loop that builds `labelCounts` from all samples' labels. -/
def buildIndex (allLabels : List Labels) : Index :=
  allLabels.foldl insertSample []

/-- A label's distinct-value count in the index (0 when absent, map lookup). -/
def countOf : Index → String → Nat
  | [], _ => 0
  | p :: t, k => if p.1 == k then p.2.length else countOf t k

/-- The mathematical (unbounded) product of the labels' distinct-value
counts — the quantity the spec's invariant speaks of.  The program's
`int` accumulator `totalCardinality` below wraps where this does not. -/
def seriesProduct (idx : Index) : Nat :=
  (idx.map (fun p => p.2.length)).prod

/-- Variable `totalCardinality`: the running product `*= uniqueValues`
over every label of the index, starting at 1, in Go `int` arithmetic —
each multiplication wraps into 64-bit two's-complement. -/
def totalCardinality (idx : Index) : Int :=
  idx.foldl (fun t p => wrap64 (t * (p.2.length : Int))) 1

/-- Flag `hasHighCardinalityRisk`: some label name matches some pattern. -/
def hasRisk (idx : Index) : Bool :=
  idx.any (fun p => (classifyWith highCardinalityPatterns p.1).isSome)

/-- The removal finding appended for a flagged label. -/
def removeMsg (name tag : String) : String :=
  "Remove " ++ name ++ " label (detected as " ++ tag ++ ") - unbounded cardinality"

/-- The per-label review warning appended when an unflagged label has more
than 100 unique values. -/
def reviewMsg (name : String) (n : Nat) : String :=
  "Review " ++ name ++ " label - " ++ toString n ++ " unique values is high"

/-- Findings `HighCardinalityRisks` accumulated by the per-label loop. -/
def riskFindings (idx : Index) : List String :=
  idx.filterMap (fun p =>
    (classifyWith highCardinalityPatterns p.1).map (fun tag => removeMsg p.1 tag))

/-- The per-label warnings accumulated by the loop (only the unflagged
`uniqueValues > 100` branch appends one). -/
def reviewWarnings (idx : Index) : List String :=
  idx.filterMap (fun p =>
    if (classifyWith highCardinalityPatterns p.1).isNone ∧ p.2.length > 100 then
      some (reviewMsg p.1 p.2.length)
    else none)

/-- Struct `LabelInfo` from the calculator. -/
structure LabelInfo where
  name : String
  estimatedValues : Nat
  cardinalityRisk : String
  isHighCardinality : Bool
  recommendedAction : String
deriving DecidableEq, Repr

/-- The per-label classification of the loop body. -/
def analyzeLabel (name : String) (values : List String) : LabelInfo :=
  let uniqueValues := values.length
  match classifyWith highCardinalityPatterns name with
  | some tag =>
    ⟨name, uniqueValues, "HIGH", true, removeMsg name tag⟩
  | none =>
    if uniqueValues > 100 then
      ⟨name, uniqueValues, "MEDIUM", false, reviewMsg name uniqueValues⟩
    else if uniqueValues > 20 then
      ⟨name, uniqueValues, "LOW-MEDIUM", false,
        "Monitor " ++ name ++ " label - " ++ toString uniqueValues ++ " unique values"⟩
    else
      ⟨name, uniqueValues, "LOW", false, "Good cardinality"⟩

/-- Map `LabelAnalysis` built by the loop. -/
def labelAnalysisOf (idx : Index) : List (String × LabelInfo) :=
  idx.map (fun p => (p.1, analyzeLabel p.1 p.2))

/-- The global warning of the sentinel path. -/
def unboundedMsg : String :=
  "Unbounded cardinality detected - could create millions of series"

/-- The `High` tier's global warning (`%d` prints the signed value). -/
def highMsg (t : Int) : String :=
  "High cardinality: ~" ++ toString t ++ " series"

/-- The `Very High` tier's global warning (`%d` prints the signed value). -/
def veryHighMsg (t : Int) : String :=
  "Very high cardinality: ~" ++ toString t ++ " series - consider reducing labels"

/-- The level chosen by the threshold ladder when no label is flagged —
signed `int` comparisons of the (possibly wrapped) accumulator. -/
def tierLevel (t : Int) : String :=
  if t < lowCardinalityThreshold then "Low"
  else if t < mediumCardinalityThreshold then "Medium"
  else if t < highCardinalityThreshold then "High"
  else "Very High"

/-- The global warnings the threshold ladder appends (Low and Medium
append none; High and Very High append one each). -/
def tierWarnings (t : Int) : List String :=
  if t < mediumCardinalityThreshold then []
  else if t < highCardinalityThreshold then [highMsg t]
  else [veryHighMsg t]

/-- Struct `Analysis` from the calculator (minus the float-formatted
`MemoryEstimateHuman` string, which no claim touches).  The two numeric
fields are Go `int`/`int64`: 64-bit signed values. -/
structure Analysis where
  estimatedSeries : Int
  memoryEstimateBytes : Int
  cardinalityLevel : String
  highCardinalityRisks : List String
  labelAnalysis : List (String × LabelInfo)
  warnings : List String
deriving DecidableEq, Repr

/-- Function `Analyze` from the calculator.  The empty-input early return; otherwise
build the index, flag via the pattern table, and either take the sentinel
path (series forced to 1000000, level CRITICAL, global warning) or the
product-and-thresholds path.  Memory is always
`int64(EstimatedSeries) * memoryPerSeriesBytes`, computed last in `int64`
arithmetic, hence wrapped. -/
def Analyze (allLabels : List Labels) : Analysis :=
  if allLabels = [] then
    { estimatedSeries := 1
      memoryEstimateBytes := memoryPerSeriesBytes
      cardinalityLevel := "Low"
      highCardinalityRisks := []
      labelAnalysis := []
      warnings := [] }
  else if hasRisk (buildIndex allLabels) then
    { estimatedSeries := 1000000
      memoryEstimateBytes := wrap64 (1000000 * memoryPerSeriesBytes)
      cardinalityLevel := "CRITICAL"
      highCardinalityRisks := riskFindings (buildIndex allLabels)
      labelAnalysis := labelAnalysisOf (buildIndex allLabels)
      warnings := reviewWarnings (buildIndex allLabels) ++ [unboundedMsg] }
  else
    { estimatedSeries := totalCardinality (buildIndex allLabels)
      memoryEstimateBytes :=
        wrap64 (totalCardinality (buildIndex allLabels) * memoryPerSeriesBytes)
      cardinalityLevel := tierLevel (totalCardinality (buildIndex allLabels))
      highCardinalityRisks := riskFindings (buildIndex allLabels)
      labelAnalysis := labelAnalysisOf (buildIndex allLabels)
      warnings := reviewWarnings (buildIndex allLabels) ++
        tierWarnings (totalCardinality (buildIndex allLabels)) }

/-- Function `Parse` from `parser.go`: split the trimmed input into lines, decode
them, require at least one sample, then analyze the samples' label sets. -/
def Parse (input : String) : Except TopErr (List Metric × Analysis) :=
  match parseAll (splitNl (trimSpace input.toList)) 1 with
  | .error e => .error e
  | .ok ms =>
    if ms = [] then .error .noValidMetrics
    else .ok (ms, Analyze (ms.map (·.labels)))

/-! ## Theorems for the cardinality estimator (C1–C5) -/

/-- Shifting by a multiple of `2^64` does not change the wrapped value. -/
theorem wrap64_add_mul (x m : Int) : wrap64 (x + 2 ^ 64 * m) = wrap64 x := by
  unfold wrap64
  have h : x + 2 ^ 64 * m + 2 ^ 63 = x + 2 ^ 63 + 2 ^ 64 * m := by ring
  rw [h, Int.add_mul_emod_self_left]

/-- Every wrapped value differs from the original by a multiple of `2^64`. -/
theorem wrap64_spec (a : Int) : ∃ q, wrap64 a = a + 2 ^ 64 * q := by
  refine ⟨-((a + 2 ^ 63) / 2 ^ 64), ?_⟩
  unfold wrap64
  rw [Int.emod_def]
  ring

/-- Wrapping the left factor before a product wraps to the same value. -/
theorem wrap64_mul_left (a b : Int) : wrap64 (wrap64 a * b) = wrap64 (a * b) := by
  obtain ⟨q, hq⟩ := wrap64_spec a
  rw [hq]
  have h : (a + 2 ^ 64 * q) * b = a * b + 2 ^ 64 * (q * b) := by ring
  rw [h, wrap64_add_mul]

/-- Wrapping is the identity on `[0, 2^63)`. -/
theorem wrap64_id_of_lt (n : Int) (h0 : 0 ≤ n) (h1 : n < 2 ^ 63) : wrap64 n = n := by
  unfold wrap64
  rw [Int.emod_eq_of_lt (by omega) (by omega)]
  omega

/-- The `int` accumulator computes the wrapped mathematical product. -/
theorem totalCardinality_eq_wrap :
    ∀ (idx : Index) (t : Int),
      idx.foldl (fun t p => wrap64 (t * (p.2.length : Int))) (wrap64 t) =
        wrap64 (t * (seriesProduct idx : Int)) := by
  intro idx
  induction idx with
  | nil =>
    intro t
    simp [seriesProduct]
  | cons a l ih =>
    intro t
    rw [List.foldl_cons, wrap64_mul_left, ih (t * (a.2.length : Int))]
    have h : seriesProduct (a :: l) = a.2.length * seriesProduct l := by
      simp [seriesProduct]
    rw [h]
    push_cast
    ring_nf

/-- The loop from 1: `totalCardinality` is the wrapped product. -/
theorem totalCardinality_eq (idx : Index) :
    totalCardinality idx = wrap64 (seriesProduct idx) := by
  have h1 : (1 : Int) = wrap64 1 := by decide
  unfold totalCardinality
  rw [h1, totalCardinality_eq_wrap idx 1, Int.one_mul]

/-- Sample carrying labels `a0 .. a(n-1)`, all set to value `v`. -/
def wideSample (n : Nat) (v : String) : Labels :=
  (List.range n).map (fun i => ("a" ++ toString i, v))

set_option maxRecDepth 100000 in
/-- C1 is false as stated: with 63 labels of two distinct values each —
none flagged — the mathematical product is `2^63`, but the Go `int`
accumulator wraps, and the report's `estimatedSeries` is `-2^63`. -/
theorem claim_c1_counterexample :
    hasRisk (buildIndex [wideSample 63 "0", wideSample 63 "1"]) = false ∧
    (seriesProduct (buildIndex [wideSample 63 "0", wideSample 63 "1"]) : Int) = 2 ^ 63 ∧
    (Analyze [wideSample 63 "0", wideSample 63 "1"]).estimatedSeries = -(2 ^ 63) :=
  ⟨by decide, by decide, by decide⟩

/-- C1 as amended: with no label flagged unbounded, `estimatedSeries` is
the product of the labels' distinct-value counts as computed in 64-bit
two's-complement `int` arithmetic — the mathematical product reduced by
`wrap64` (they agree whenever the product stays below `2^63`); and for an
empty index the report has `estimatedSeries = 1`, level `Low`, and the
base per-series memory cost. -/
theorem claim_c1_series_product (allLabels : List Labels)
    (hflag : hasRisk (buildIndex allLabels) = false) :
    (Analyze allLabels).estimatedSeries =
      wrap64 (seriesProduct (buildIndex allLabels)) ∧
    (seriesProduct (buildIndex allLabels) < 2 ^ 63 →
      (Analyze allLabels).estimatedSeries = seriesProduct (buildIndex allLabels)) ∧
    (buildIndex allLabels = [] →
      (Analyze allLabels).estimatedSeries = 1 ∧
      (Analyze allLabels).cardinalityLevel = "Low" ∧
      (Analyze allLabels).memoryEstimateBytes = memoryPerSeriesBytes) := by
  have hwrap : (Analyze allLabels).estimatedSeries =
      wrap64 (seriesProduct (buildIndex allLabels)) := by
    by_cases hA : allLabels = []
    · subst hA
      decide
    · simp only [Analyze, if_neg hA, hflag, Bool.false_eq_true, if_false]
      exact totalCardinality_eq _
  refine ⟨hwrap, fun hlt => ?_, fun hidx => ?_⟩
  · rw [hwrap, wrap64_id_of_lt _ (Int.ofNat_nonneg _) (by exact_mod_cast hlt)]
  · by_cases hA : allLabels = []
    · subst hA
      exact ⟨by decide, by decide, by decide⟩
    · simp only [Analyze, if_neg hA, hflag, Bool.false_eq_true, if_false]
      rw [hidx]
      exact ⟨by decide, by decide, by decide⟩

/-- Witness for the amended C1 at the empty sample list. -/
theorem claim_c1_witness :
    hasRisk (buildIndex ([] : List Labels)) = false ∧
    ((Analyze ([] : List Labels)).estimatedSeries =
        wrap64 (seriesProduct (buildIndex ([] : List Labels))) ∧
      (seriesProduct (buildIndex ([] : List Labels)) < 2 ^ 63 →
        (Analyze ([] : List Labels)).estimatedSeries =
          seriesProduct (buildIndex ([] : List Labels))) ∧
      (buildIndex ([] : List Labels) = [] →
        (Analyze ([] : List Labels)).estimatedSeries = 1 ∧
        (Analyze ([] : List Labels)).cardinalityLevel = "Low" ∧
        (Analyze ([] : List Labels)).memoryEstimateBytes = memoryPerSeriesBytes)) :=
  ⟨by decide, claim_c1_series_product [] (by decide)⟩

/-- C2: whenever some label of the index is flagged by the pattern
classifier, the report is forced to the sentinel series count, level
CRITICAL, and the global unbounded warning is appended — independently of
the distinct-value counts. -/
theorem claim_c2_sentinel (allLabels : List Labels)
    (hflag : hasRisk (buildIndex allLabels) = true) :
    (Analyze allLabels).estimatedSeries = 1000000 ∧
    (Analyze allLabels).cardinalityLevel = "CRITICAL" ∧
    unboundedMsg ∈ (Analyze allLabels).warnings := by
  have hA : allLabels ≠ [] := by
    intro h
    subst h
    simp [buildIndex, hasRisk] at hflag
  simp only [Analyze, if_neg hA, hflag, if_true]
  refine ⟨by trivial, by trivial, ?_⟩
  exact List.mem_append.mpr (Or.inr (List.mem_singleton.mpr rfl))

/-- Witness for C2: one sample carrying a `user_id` label. -/
theorem claim_c2_witness :
    hasRisk (buildIndex [[("user_id", "42")]]) = true ∧
    ((Analyze [[("user_id", "42")]]).estimatedSeries = 1000000 ∧
      (Analyze [[("user_id", "42")]]).cardinalityLevel = "CRITICAL" ∧
      unboundedMsg ∈ (Analyze [[("user_id", "42")]]).warnings) :=
  ⟨by decide, claim_c2_sentinel [[("user_id", "42")]] (by decide)⟩

/-- C3 is false as stated: a single sample `{user_id="42"}` gives every
label exactly one distinct value (≤ 20), yet the level is CRITICAL,
because the pattern flag — not the counts — decides the sentinel path. -/
theorem claim_c3_counterexample :
    (∀ p ∈ buildIndex [[("user_id", "42")]], p.2.length ≤ 20) ∧
    (Analyze [[("user_id", "42")]]).cardinalityLevel = "CRITICAL" := by
  constructor
  · decide
  · decide

/-- C3 as amended: if every label has at most 20 distinct values AND no
label name matches a high-cardinality pattern, the level is never
CRITICAL. -/
theorem claim_c3_amended (allLabels : List Labels)
    (hcounts : ∀ p ∈ buildIndex allLabels, p.2.length ≤ 20)
    (hflag : hasRisk (buildIndex allLabels) = false) :
    (Analyze allLabels).cardinalityLevel ≠ "CRITICAL" := by
  by_cases hA : allLabels = []
  · subst hA
    decide
  · simp only [Analyze, if_neg hA, hflag, Bool.false_eq_true, if_false]
    simp only [tierLevel]
    split_ifs <;> decide

/-- Witness for the amended C3. -/
theorem claim_c3_witness :
    (∀ p ∈ buildIndex [[("method", "GET")]], p.2.length ≤ 20) ∧
    hasRisk (buildIndex [[("method", "GET")]]) = false ∧
    (Analyze [[("method", "GET")]]).cardinalityLevel ≠ "CRITICAL" :=
  ⟨by decide, by decide, claim_c3_amended [[("method", "GET")]] (by decide) (by decide)⟩

/-- C4 is false as stated: ten samples over labels `a` and `b` with ten
distinct values each give `estimatedSeries = 100`, level Medium — a level
above Low — yet the warnings list is empty: the Medium tier appends no
warning. -/
theorem claim_c4_counterexample :
    (Analyze ((List.range 10).map
        (fun i => [("a", toString i), ("b", toString i)]))).estimatedSeries = 100 ∧
    (Analyze ((List.range 10).map
        (fun i => [("a", toString i), ("b", toString i)]))).cardinalityLevel = "Medium" ∧
    (Analyze ((List.range 10).map
        (fun i => [("a", toString i), ("b", toString i)]))).warnings = [] := by
  refine ⟨by decide, by decide, by decide⟩

/-- C4 as amended: with no flagged label, `estimatedSeries` is the
wrapped product, and the level follows the fixed breakpoints applied to
that stored signed value (<100 Low, <1000 Medium, <10000 High, else Very
High — so an overflowed product can land in a lower tier); the High and
Very High tiers each append a global warning containing the numeric
estimate, while the Low and Medium tiers append none (below 1000 the
warnings are exactly the per-label review warnings). -/
theorem claim_c4_amended (allLabels : List Labels)
    (hflag : hasRisk (buildIndex allLabels) = false) :
    (Analyze allLabels).estimatedSeries =
      wrap64 (seriesProduct (buildIndex allLabels)) ∧
    ((Analyze allLabels).estimatedSeries < 100 →
      (Analyze allLabels).cardinalityLevel = "Low") ∧
    (100 ≤ (Analyze allLabels).estimatedSeries →
      (Analyze allLabels).estimatedSeries < 1000 →
      (Analyze allLabels).cardinalityLevel = "Medium") ∧
    (1000 ≤ (Analyze allLabels).estimatedSeries →
      (Analyze allLabels).estimatedSeries < 10000 →
      (Analyze allLabels).cardinalityLevel = "High" ∧
      highMsg ((Analyze allLabels).estimatedSeries) ∈ (Analyze allLabels).warnings) ∧
    (10000 ≤ (Analyze allLabels).estimatedSeries →
      (Analyze allLabels).cardinalityLevel = "Very High" ∧
      veryHighMsg ((Analyze allLabels).estimatedSeries) ∈ (Analyze allLabels).warnings) ∧
    ((Analyze allLabels).estimatedSeries < 1000 →
      (Analyze allLabels).warnings = reviewWarnings (buildIndex allLabels)) := by
  by_cases hA : allLabels = []
  · subst hA
    refine ⟨by decide, fun _ => rfl, fun h1 _ => absurd h1 (by decide),
      fun h1 _ => absurd h1 (by decide), fun h1 => absurd h1 (by decide),
      fun _ => rfl⟩
  · simp only [Analyze, if_neg hA, hflag, Bool.false_eq_true, if_false]
    simp only [tierLevel, tierWarnings, lowCardinalityThreshold,
      mediumCardinalityThreshold, highCardinalityThreshold]
    refine ⟨totalCardinality_eq _, fun h1 => ?_, fun h1 h2 => ?_,
      fun h1 h2 => ?_, fun h1 => ?_, fun h1 => ?_⟩
    · rw [if_pos h1]
    · rw [if_neg (by omega), if_pos h2]
    · rw [if_neg (by omega), if_neg (by omega), if_pos h2, if_neg (by omega), if_pos h2]
      exact ⟨rfl, List.mem_append.mpr (Or.inr (List.mem_singleton.mpr rfl))⟩
    · rw [if_neg (by omega), if_neg (by omega), if_neg (by omega),
        if_neg (by omega), if_neg (by omega)]
      exact ⟨rfl, List.mem_append.mpr (Or.inr (List.mem_singleton.mpr rfl))⟩
    · rw [if_pos h1, List.append_nil]

/-- Witness for the amended C4 at one sample (product 1, Low tier). -/
theorem claim_c4_witness :
    hasRisk (buildIndex [[("method", "GET")]]) = false ∧
    ((Analyze [[("method", "GET")]]).estimatedSeries = 100 → False) ∧
    (Analyze [[("method", "GET")]]).cardinalityLevel = "Low" :=
  ⟨by decide, by decide,
    (claim_c4_amended [[("method", "GET")]] (by decide)).2.1 (by decide)⟩

set_option maxRecDepth 100000 in
/-- C5 is false as stated: with 62 two-valued labels the product `2^62`
fits in an `int`, so `estimatedSeries = 2^62`; but the `int64`
multiplication by 3000 overflows — `2^62 * 3000` is a multiple of `2^64`
— and the stored `memoryEstimateBytes` is 0, not the exact integer
product. -/
theorem claim_c5_counterexample :
    (Analyze [wideSample 62 "0", wideSample 62 "1"]).estimatedSeries = 2 ^ 62 ∧
    (Analyze [wideSample 62 "0", wideSample 62 "1"]).memoryEstimateBytes = 0 ∧
    (Analyze [wideSample 62 "0", wideSample 62 "1"]).memoryEstimateBytes ≠
      (Analyze [wideSample 62 "0", wideSample 62 "1"]).estimatedSeries *
        memoryPerSeriesBytes :=
  ⟨by decide, by decide, by decide⟩

/-- C5 as amended: in every report — empty, sentinel, and product path
alike — `memoryEstimateBytes` equals `estimatedSeries * memoryPerSeriesBytes`
computed in `int64` arithmetic, i.e. the product reduced by `wrap64`;
exact equality holds whenever that product stays within the `int64`
range. -/
theorem claim_c5_memory (allLabels : List Labels) :
    (Analyze allLabels).memoryEstimateBytes =
      wrap64 ((Analyze allLabels).estimatedSeries * memoryPerSeriesBytes) ∧
    (0 ≤ (Analyze allLabels).estimatedSeries * memoryPerSeriesBytes →
      (Analyze allLabels).estimatedSeries * memoryPerSeriesBytes < 2 ^ 63 →
      (Analyze allLabels).memoryEstimateBytes =
        (Analyze allLabels).estimatedSeries * memoryPerSeriesBytes) := by
  have hwrap : (Analyze allLabels).memoryEstimateBytes =
      wrap64 ((Analyze allLabels).estimatedSeries * memoryPerSeriesBytes) := by
    by_cases h1 : allLabels = []
    · rw [h1]
      decide
    · by_cases h2 : hasRisk (buildIndex allLabels) = true
      · simp only [Analyze, if_neg h1, h2, if_true]
      · simp only [Analyze, if_neg h1, h2, Bool.false_eq_true, if_false]
  refine ⟨hwrap, fun hge hlt => ?_⟩
  rw [hwrap, wrap64_id_of_lt _ hge hlt]

/-- Witness for the amended C5 at a label-free sample. -/
theorem claim_c5_witness :
    (0 ≤ (Analyze [[]]).estimatedSeries * memoryPerSeriesBytes ∧
      (Analyze [[]]).estimatedSeries * memoryPerSeriesBytes < 2 ^ 63) ∧
    (Analyze [[]]).memoryEstimateBytes =
      wrap64 ((Analyze [[]]).estimatedSeries * memoryPerSeriesBytes) ∧
    (Analyze [[]]).memoryEstimateBytes =
      (Analyze [[]]).estimatedSeries * memoryPerSeriesBytes :=
  ⟨⟨by decide, by decide⟩, (claim_c5_memory [[]]).1,
    (claim_c5_memory [[]]).2 (by decide) (by decide)⟩

/-! ## Theorems for the pattern classifier (C10) -/

/-- If every element of `l` satisfying `p` equals `e0`, the first match is
`e0` when any match exists, else there is none. -/
theorem find?_of_unique {α : Type} (p : α → Bool) (e0 : α) :
    ∀ (l : List α), (∀ e ∈ l, p e = true → e = e0) →
      l.find? p = if l.any p then some e0 else none := by
  intro l
  induction l with
  | nil => intro _; rfl
  | cons a t ih =>
    intro h
    by_cases hpa : p a = true
    · have ha : a = e0 := h a (List.mem_cons_self a t) hpa
      subst ha
      rw [List.find?_cons_of_pos _ hpa, List.any_cons, hpa]
      rfl
    · rw [List.find?_cons_of_neg _ hpa, List.any_cons,
        Bool.eq_false_iff.mpr hpa, Bool.false_or]
      exact ih (fun e he hpe => h e (List.mem_cons_of_mem _ he) hpe)

/-- A permutation preserves `any`. -/
theorem any_of_perm {α : Type} (p : α → Bool) {l₁ l₂ : List α}
    (h : l₁.Perm l₂) : l₁.any p = l₂.any p := by
  cases h2 : l₂.any p
  · cases h1 : l₁.any p
    · rfl
    · obtain ⟨x, hx, hpx⟩ := List.any_eq_true.mp h1
      have : l₂.any p = true :=
        List.any_eq_true.mpr ⟨x, h.mem_iff.mp hx, hpx⟩
      rw [this] at h2
      exact h2
  · obtain ⟨x, hx, hpx⟩ := List.any_eq_true.mp h2
    exact List.any_eq_true.mpr ⟨x, h.mem_iff.mpr hx, hpx⟩

/-- Distinct rows of the pattern table have disjoint languages: no word is
listed under two different rows. -/
theorem table_rows_disjoint :
    ∀ e ∈ highCardinalityPatterns, ∀ e' ∈ highCardinalityPatterns,
      e ≠ e' → ∀ s ∈ e.2, s ∉ e'.2 := by decide

/-- For any label name, at most one row of the pattern table matches. -/
theorem classify_match_unique (name : String) :
    ∀ e ∈ highCardinalityPatterns, ∀ e' ∈ highCardinalityPatterns,
      patternMatches e.2 name = true → patternMatches e'.2 name = true → e = e' := by
  intro e he e' he' hp hp'
  by_contra hne
  exact table_rows_disjoint e he e' he' hne (lowerStr name)
    (of_decide_eq_true hp) (of_decide_eq_true hp')

/-- C10: classification yields at most one idiom tag, and its outcome is
independent of the iteration order of the pattern table: for any two
orderings of the (Go-map-backed) table, `classifyWith` — first match wins
— returns the same tag for every label name. -/
theorem claim_c10_classifier_deterministic
    (t₁ t₂ : List (String × List String))
    (h₁ : t₁.Perm highCardinalityPatterns)
    (h₂ : t₂.Perm highCardinalityPatterns) (name : String) :
    classifyWith t₁ name = classifyWith t₂ name ∧
    (∀ e ∈ highCardinalityPatterns, ∀ e' ∈ highCardinalityPatterns,
      patternMatches e.2 name = true → patternMatches e'.2 name = true → e = e') := by
  refine ⟨?_, classify_match_unique name⟩
  unfold classifyWith
  by_cases hex : ∃ e ∈ highCardinalityPatterns, patternMatches e.2 name = true
  · obtain ⟨e0, he0, hpe0⟩ := hex
    have u₁ : ∀ e ∈ t₁, patternMatches e.2 name = true → e = e0 :=
      fun e he hpe => classify_match_unique name e (h₁.mem_iff.mp he) e0 he0 hpe hpe0
    have u₂ : ∀ e ∈ t₂, patternMatches e.2 name = true → e = e0 :=
      fun e he hpe => classify_match_unique name e (h₂.mem_iff.mp he) e0 he0 hpe hpe0
    rw [find?_of_unique _ e0 t₁ u₁, find?_of_unique _ e0 t₂ u₂,
      any_of_perm _ h₁, any_of_perm _ h₂]
  · have n₁ : t₁.find? (fun row => patternMatches row.2 name) = none :=
      List.find?_eq_none.mpr fun e he hpe =>
        hex ⟨e, h₁.mem_iff.mp he, hpe⟩
    have n₂ : t₂.find? (fun row => patternMatches row.2 name) = none :=
      List.find?_eq_none.mpr fun e he hpe =>
        hex ⟨e, h₂.mem_iff.mp he, hpe⟩
    rw [n₁, n₂]

/-- Witness for C10: the reversed table order classifies `user_id` the
same as the source-text order. -/
theorem claim_c10_witness :
    highCardinalityPatterns.reverse.Perm highCardinalityPatterns ∧
    (classifyWith highCardinalityPatterns.reverse "user_id" =
        classifyWith highCardinalityPatterns "user_id" ∧
      (∀ e ∈ highCardinalityPatterns, ∀ e' ∈ highCardinalityPatterns,
        patternMatches e.2 "user_id" = true → patternMatches e'.2 "user_id" = true →
          e = e')) :=
  ⟨List.reverse_perm _,
    claim_c10_classifier_deterministic highCardinalityPatterns.reverse
      highCardinalityPatterns (List.reverse_perm _) (List.Perm.refl _) "user_id"⟩

/-! ## Monotonicity of the index and of the series estimate (C9) -/

/-- Updating via `upd` keeps the key. -/
theorem upd_fst (k v : String) (p : String × List String) :
    (upd k v p).1 = p.1 := by
  unfold upd
  split <;> rfl

/-- Updating via `upd` never shrinks the value list. -/
theorem upd_len_ge (k v : String) (p : String × List String) :
    p.2.length ≤ (upd k v p).2.length := by
  unfold upd
  split
  · split
    · exact Nat.le_refl _
    · simp
  · exact Nat.le_refl _

/-- Updating an existing key never lowers any key's distinct count. -/
theorem countOf_le_map_upd (k v k' : String) :
    ∀ idx : Index, countOf idx k' ≤ countOf (idx.map (upd k v)) k' := by
  intro idx
  induction idx with
  | nil => exact Nat.le_refl _
  | cons a t ih =>
    simp only [List.map_cons, countOf, upd_fst]
    by_cases h : (a.1 == k') = true
    · rw [if_pos h, if_pos h]
      exact upd_len_ge k v a
    · rw [if_neg h, if_neg h]
      exact ih

/-- Appending a fresh key never lowers any key's distinct count. -/
theorem countOf_le_append_single (k v k' : String) :
    ∀ idx : Index, countOf idx k' ≤ countOf (idx ++ [(k, [v])]) k' := by
  intro idx
  induction idx with
  | nil => exact Nat.zero_le _
  | cons a t ih =>
    simp only [List.cons_append, countOf]
    by_cases h : (a.1 == k') = true
    · rw [if_pos h, if_pos h]
    · rw [if_neg h, if_neg h]
      exact ih

/-- Inserting with `insertValue` never lowers any key's distinct count. -/
theorem countOf_le_insertValue (idx : Index) (k v k' : String) :
    countOf idx k' ≤ countOf (insertValue idx k v) k' := by
  unfold insertValue
  split
  · exact countOf_le_map_upd k v k' idx
  · exact countOf_le_append_single k v k' idx

/-- Inserting with `insertSample` never lowers any key's distinct count. -/
theorem countOf_le_insertSample (labels : Labels) (k' : String) :
    ∀ idx : Index, countOf idx k' ≤ countOf (insertSample idx labels) k' := by
  induction labels with
  | nil => intro idx; exact Nat.le_refl _
  | cons kv t ih =>
    intro idx
    exact Nat.le_trans (countOf_le_insertValue idx kv.1 kv.2 k') (ih _)

/-- Updating an existing key never lowers the series product. -/
theorem prod_le_map_upd (k v : String) :
    ∀ idx : Index, seriesProduct idx ≤ seriesProduct (idx.map (upd k v)) := by
  intro idx
  induction idx with
  | nil => exact Nat.le_refl _
  | cons a t ih =>
    unfold seriesProduct at *
    rw [List.map_cons, List.map_cons, List.prod_cons, List.map_cons, List.prod_cons]
    exact Nat.mul_le_mul (upd_len_ge k v a) ih

/-- Appending a fresh single-valued key keeps the series product. -/
theorem prod_append_single (k v : String) (idx : Index) :
    seriesProduct (idx ++ [(k, [v])]) = seriesProduct idx := by
  unfold seriesProduct
  rw [List.map_append, List.prod_append]
  simp

/-- Inserting with `insertValue` never lowers the series product. -/
theorem prod_le_insertValue (idx : Index) (k v : String) :
    seriesProduct idx ≤ seriesProduct (insertValue idx k v) := by
  unfold insertValue
  split
  · exact prod_le_map_upd k v idx
  · rw [prod_append_single]

/-- Inserting with `insertSample` never lowers the series product. -/
theorem prod_le_insertSample (labels : Labels) :
    ∀ idx : Index, seriesProduct idx ≤ seriesProduct (insertSample idx labels) := by
  induction labels with
  | nil => intro idx; exact Nat.le_refl _
  | cons kv t ih =>
    intro idx
    exact Nat.le_trans (prod_le_insertValue idx kv.1 kv.2) (ih _)

/-- Every key of the index survives `insertValue`. -/
theorem keys_sub_insertValue (idx : Index) (k v : String) :
    ∀ p ∈ idx, ∃ q ∈ insertValue idx k v, q.1 = p.1 := by
  intro p hp
  unfold insertValue
  split
  · exact ⟨upd k v p, List.mem_map_of_mem _ hp, upd_fst k v p⟩
  · exact ⟨p, List.mem_append_left _ hp, rfl⟩

/-- Every key of the index survives `insertSample`. -/
theorem keys_sub_insertSample (labels : Labels) :
    ∀ idx : Index, ∀ p ∈ idx, ∃ q ∈ insertSample idx labels, q.1 = p.1 := by
  induction labels with
  | nil => intro idx p hp; exact ⟨p, hp, rfl⟩
  | cons kv t ih =>
    intro idx p hp
    obtain ⟨q, hq, hq1⟩ := keys_sub_insertValue idx kv.1 kv.2 p hp
    obtain ⟨r, hr, hr1⟩ := ih (insertValue idx kv.1 kv.2) q hq
    exact ⟨r, hr, hr1.trans hq1⟩

/-- If the extended index carries no flagged label, neither did the
original: flags depend only on key names, and keys only accumulate. -/
theorem hasRisk_false_of_insertSample (idx : Index) (s : Labels)
    (h : hasRisk (insertSample idx s) = false) : hasRisk idx = false := by
  cases ht : hasRisk idx with
  | false => rfl
  | true =>
    unfold hasRisk at ht
    obtain ⟨p, hp, hcp⟩ := List.any_eq_true.mp ht
    obtain ⟨q, hq, hq1⟩ := keys_sub_insertSample s idx p hp
    have htrue : hasRisk (insertSample idx s) = true :=
      List.any_eq_true.mpr ⟨q, hq, by rw [hq1]; exact hcp⟩
    rw [h] at htrue
    exact absurd htrue Bool.false_ne_true

/-- The index of `S ++ [s]` extends the index of `S` by one sample. -/
theorem buildIndex_snoc (S : List Labels) (s : Labels) :
    buildIndex (S ++ [s]) = insertSample (buildIndex S) s := by
  unfold buildIndex
  rw [List.foldl_append]
  rfl

/-- On the no-flag path, `estimatedSeries` is the index's wrapped product. -/
theorem analyze_series_no_risk (al : List Labels)
    (h : hasRisk (buildIndex al) = false) :
    (Analyze al).estimatedSeries = wrap64 (seriesProduct (buildIndex al)) := by
  by_cases hA : al = []
  · subst hA
    decide
  · simp only [Analyze, if_neg hA, h, Bool.false_eq_true, if_false]
    exact totalCardinality_eq _

set_option maxRecDepth 100000 in
/-- C9 is false as stated: start from 63 labels `a0..a62` where `a62` has
one distinct value and the rest two, so the stored estimate is `2^62`;
one more sample gives `a62` (already present) a new value, the product
doubles to `2^63`, the `int` accumulator wraps to `-2^63`, and the
reported `estimatedSeries` strictly DECREASES although the sentinel path
never fires. -/
theorem claim_c9_counterexample :
    (buildIndex [wideSample 63 "0", wideSample 62 "1"]).any (·.1 == "a62") = true ∧
    ("a62", "1") ∈ [("a62", "1")] ∧
    valueSeen (buildIndex [wideSample 63 "0", wideSample 62 "1"]) "a62" "1" = false ∧
    hasRisk
      (buildIndex ([wideSample 63 "0", wideSample 62 "1"] ++ [[("a62", "1")]])) = false ∧
    (Analyze ([wideSample 63 "0", wideSample 62 "1"] ++ [[("a62", "1")]])).estimatedSeries <
      (Analyze [wideSample 63 "0", wideSample 62 "1"]).estimatedSeries :=
  ⟨by decide, by decide, by decide, by decide, by decide⟩

/-- C9 as amended: appending a sample `s` that brings a new value `v`
for a label `k` already present in `S` never decreases `k`'s
distinct-value count; and it never decreases the estimated series count
provided the unbounded-sentinel path does not fire on the extended input
AND the extended index's product stays below `2^63` (no `int`
wraparound). -/
theorem claim_c9_adding_sample_monotone (S : List Labels) (s : Labels) (k v : String)
    (_hk : (buildIndex S).any (·.1 == k) = true)
    (_hv : (k, v) ∈ s)
    (_hnew : valueSeen (buildIndex S) k v = false)
    (hflag : hasRisk (buildIndex (S ++ [s])) = false)
    (hover : seriesProduct (buildIndex (S ++ [s])) < 2 ^ 63) :
    countOf (buildIndex S) k ≤ countOf (buildIndex (S ++ [s])) k ∧
    (Analyze S).estimatedSeries ≤ (Analyze (S ++ [s])).estimatedSeries := by
  have hsnoc := buildIndex_snoc S s
  have hflagS : hasRisk (buildIndex S) = false := by
    refine hasRisk_false_of_insertSample (buildIndex S) s ?_
    rw [← hsnoc]
    exact hflag
  have hmono : seriesProduct (buildIndex S) ≤ seriesProduct (buildIndex (S ++ [s])) := by
    rw [hsnoc]
    exact prod_le_insertSample s (buildIndex S)
  constructor
  · rw [hsnoc]
    exact countOf_le_insertSample s k (buildIndex S)
  · rw [analyze_series_no_risk S hflagS, analyze_series_no_risk (S ++ [s]) hflag,
      wrap64_id_of_lt _ (Int.ofNat_nonneg _)
        (by exact_mod_cast Nat.lt_of_le_of_lt hmono hover),
      wrap64_id_of_lt _ (Int.ofNat_nonneg _) (by exact_mod_cast hover)]
    exact_mod_cast hmono

/-- Witness for the amended C9: a second `region` value joins a
one-sample list. -/
theorem claim_c9_witness :
    (buildIndex [[("region", "us")]]).any (·.1 == "region") = true ∧
    ("region", "eu") ∈ [("region", "eu")] ∧
    valueSeen (buildIndex [[("region", "us")]]) "region" "eu" = false ∧
    hasRisk (buildIndex ([[("region", "us")]] ++ [[("region", "eu")]])) = false ∧
    seriesProduct (buildIndex ([[("region", "us")]] ++ [[("region", "eu")]])) < 2 ^ 63 ∧
    (countOf (buildIndex [[("region", "us")]]) "region" ≤
        countOf (buildIndex ([[("region", "us")]] ++ [[("region", "eu")]])) "region" ∧
      (Analyze [[("region", "us")]]).estimatedSeries ≤
        (Analyze ([[("region", "us")]] ++ [[("region", "eu")]])).estimatedSeries) :=
  ⟨by decide, by decide, by decide, by decide, by decide,
    claim_c9_adding_sample_monotone [[("region", "us")]] [("region", "eu")] "region" "eu"
      (by decide) (by decide) (by decide) (by decide) (by decide)⟩

/-! ## The quote-aware label scanner (C8) -/

/-- List `takeWhile` passes over an all-true run at the front. -/
theorem takeWhile_all_true {α : Type} (p : α → Bool) :
    ∀ (k r : List α), (∀ c ∈ k, p c = true) → (k ++ r).takeWhile p = k ++ r.takeWhile p := by
  intro k
  induction k with
  | nil => intro r _; rfl
  | cons a t ih =>
    intro r h
    rw [List.cons_append, List.takeWhile_cons, h a (List.mem_cons_self a t), if_pos rfl,
      ih r (fun c hc => h c (List.mem_cons_of_mem a hc)), List.cons_append]

/-- List `dropWhile` drops an all-true run at the front. -/
theorem dropWhile_all_true {α : Type} (p : α → Bool) :
    ∀ (k r : List α), (∀ c ∈ k, p c = true) → (k ++ r).dropWhile p = r.dropWhile p := by
  intro k
  induction k with
  | nil => intro r _; rfl
  | cons a t ih =>
    intro r h
    rw [List.cons_append, List.dropWhile_cons, h a (List.mem_cons_self a t)]
    exact ih r (fun c hc => h c (List.mem_cons_of_mem a hc))

/-- List `dropWhile` keeps a list whose elements all fail `p`. -/
theorem dropWhile_all_false {α : Type} (p : α → Bool) :
    ∀ (l : List α), (∀ c ∈ l, p c = false) → l.dropWhile p = l := by
  intro l
  induction l with
  | nil => intro _; rfl
  | cons a t ih =>
    intro h
    rw [List.dropWhile_cons, h a (List.mem_cons_self a t)]
    simp only [Bool.false_eq_true, if_false]

/-- Trimming keeps a list with no whitespace anywhere. -/
theorem trimSpace_of_no_space (l : List Char)
    (h : ∀ c ∈ l, isGoSpace c = false) : trimSpace l = l := by
  unfold trimSpace
  rw [dropWhile_all_false isGoSpace l h,
    dropWhile_all_false isGoSpace l.reverse (fun c hc => h c (List.mem_reverse.mp hc)),
    List.reverse_reverse]

/-- The scanner's step on a non-empty input, as an equation. -/
theorem splitLabelsGo_cons (c : Char) (rest cur : List Char) (inQ : Bool) :
    splitLabelsGo (c :: rest) inQ cur =
      if c = '"' then splitLabelsGo rest (!inQ) (c :: cur)
      else if c = ',' then
        (if inQ then splitLabelsGo rest inQ (c :: cur)
         else if cur = [] then splitLabelsGo rest inQ []
         else cur.reverse :: splitLabelsGo rest inQ [])
      else splitLabelsGo rest inQ (c :: cur) := rfl

/-- The scanner's final flush, as an equation. -/
theorem splitLabelsGo_nil (cur : List Char) (inQ : Bool) :
    splitLabelsGo [] inQ cur = if cur = [] then [] else [cur.reverse] := rfl

/-- The scanner accumulates any run free of quotes and commas, in any
quote state. -/
theorem splitLabelsGo_plain (cs : List Char)
    (h : ∀ c ∈ cs, c ≠ '"' ∧ c ≠ ',') :
    ∀ (rest cur : List Char) (inQ : Bool),
      splitLabelsGo (cs ++ rest) inQ cur = splitLabelsGo rest inQ (cs.reverse ++ cur) := by
  induction cs with
  | nil => intro rest cur inQ; rfl
  | cons a t ih =>
    intro rest cur inQ
    have ha := h a (List.mem_cons_self a t)
    rw [List.cons_append, splitLabelsGo_cons, if_neg ha.1, if_neg ha.2,
      ih (fun c hc => h c (List.mem_cons_of_mem a hc)) rest (a :: cur) inQ,
      List.reverse_cons, List.append_assoc, List.singleton_append]

/-- Inside quotes the scanner accumulates any run free of quotes —
commas included. -/
theorem splitLabelsGo_quoted (cs : List Char)
    (h : ∀ c ∈ cs, c ≠ '"') :
    ∀ (rest cur : List Char),
      splitLabelsGo (cs ++ rest) true cur = splitLabelsGo rest true (cs.reverse ++ cur) := by
  induction cs with
  | nil => intro rest cur; rfl
  | cons a t ih =>
    intro rest cur
    have ha := h a (List.mem_cons_self a t)
    rw [List.cons_append, splitLabelsGo_cons, if_neg ha]
    by_cases hc : a = ','
    · rw [if_pos hc, if_pos rfl,
        ih (fun c hcm => h c (List.mem_cons_of_mem a hcm)) rest (a :: cur),
        List.reverse_cons, List.append_assoc, List.singleton_append]
    · rw [if_neg hc,
        ih (fun c hcm => h c (List.mem_cons_of_mem a hcm)) rest (a :: cur),
        List.reverse_cons, List.append_assoc, List.singleton_append]

/-- A quoted pair `k="v"` is one segment of the scanner: the commas inside
the quoted value do not split it. -/
theorem splitLabels_quoted_pair (k v : List Char)
    (hk : ∀ c ∈ k, c ≠ '"' ∧ c ≠ ',')
    (hv : ∀ c ∈ v, c ≠ '"') :
    splitLabels (k ++ '=' :: '"' :: (v ++ ['"'])) = [k ++ '=' :: '"' :: (v ++ ['"'])] := by
  unfold splitLabels
  rw [splitLabelsGo_plain k hk ('=' :: '"' :: (v ++ ['"'])) [] false,
    splitLabelsGo_cons, if_neg (by decide : ('=' : Char) ≠ '"'),
    if_neg (by decide : ('=' : Char) ≠ ','),
    splitLabelsGo_cons, if_pos rfl, Bool.not_false,
    splitLabelsGo_quoted v hv ['"'] _,
    splitLabelsGo_cons, if_pos rfl, Bool.not_true,
    splitLabelsGo_nil, if_neg (by simp)]
  simp

/-- One `parseLabels` loop step when the segment has an `=`. -/
theorem parseLabelsGo_cons_some (pair : List Char) (rest : List (List Char))
    (labels : Labels) (k v : List Char) (h : splitEq pair = some (k, v)) :
    parseLabelsGo (pair :: rest) labels =
      parseLabelsGo rest
        (insertLabel labels (String.mk (trimSpace k)) (String.mk (trimQuotes (trimSpace v)))) := by
  show (match splitEq pair with
    | none => Except.error (ParseErr.invalidLabelSyntax (String.mk pair))
    | some (k, v) =>
      parseLabelsGo rest
        (insertLabel labels (String.mk (trimSpace k)) (String.mk (trimQuotes (trimSpace v))))) = _
  rw [h]

/-- One `parseLabels` loop step when the segment has no `=`. -/
theorem parseLabelsGo_cons_none (pair : List Char) (rest : List (List Char))
    (labels : Labels) (h : splitEq pair = none) :
    parseLabelsGo (pair :: rest) labels = .error (.invalidLabelSyntax (String.mk pair)) := by
  show (match splitEq pair with
    | none => Except.error (ParseErr.invalidLabelSyntax (String.mk pair))
    | some (k, v) =>
      parseLabelsGo rest
        (insertLabel labels (String.mk (trimSpace k)) (String.mk (trimQuotes (trimSpace v))))) = _
  rw [h]

/-- C8: a label pair `k="v"` whose quoted value `v` may contain commas
(but no quote) — and whose key contains no quote, comma, `=` or
whitespace — is decoded as the single label `(k, v)` with the full value
kept intact. -/
theorem claim_c8_quoted_comma_one_label (k v : List Char)
    (hk : ∀ c ∈ k, c ≠ '"' ∧ c ≠ ',' ∧ c ≠ '=' ∧ isGoSpace c = false)
    (hv : ∀ c ∈ v, c ≠ '"' ∧ isGoSpace c = false) :
    parseLabels (String.mk (k ++ '=' :: '"' :: (v ++ ['"']))) =
      .ok [(String.mk k, String.mk v)] := by
  have hne : String.mk (k ++ '=' :: '"' :: (v ++ ['"'])) ≠ "" := by
    intro he
    have h2 : k ++ '=' :: '"' :: (v ++ ['"']) = [] := congrArg String.toList he
    simp at h2
  unfold parseLabels
  rw [if_neg hne]
  have htl : (String.mk (k ++ '=' :: '"' :: (v ++ ['"']))).toList =
      k ++ '=' :: '"' :: (v ++ ['"']) := rfl
  rw [htl, splitLabels_quoted_pair k v (fun c hc => ⟨(hk c hc).1, (hk c hc).2.1⟩)
    (fun c hc => (hv c hc).1)]
  have hcont : (k ++ '=' :: '"' :: (v ++ ['"'])).contains '=' = true :=
    List.elem_eq_true_of_mem
      (List.mem_append_right _ (List.mem_cons_self _ _))
  have hkeq : ∀ c ∈ k, (decide ¬(c = '=')) = true := by
    intro c hc
    simp [(hk c hc).2.2.1]
  have hsp : splitEq (k ++ '=' :: '"' :: (v ++ ['"'])) =
      some (k, '"' :: (v ++ ['"'])) := by
    unfold splitEq
    rw [if_pos hcont,
      takeWhile_all_true _ k ('=' :: '"' :: (v ++ ['"'])) hkeq,
      dropWhile_all_true _ k ('=' :: '"' :: (v ++ ['"'])) hkeq,
      List.takeWhile_cons_of_neg (by simp), List.dropWhile_cons_of_neg (by simp),
      List.append_nil, List.tail_cons]
  rw [parseLabelsGo_cons_some _ _ _ _ _ hsp]
  rw [trimSpace_of_no_space k (fun c hc => (hk c hc).2.2.2)]
  have hq : isGoSpace '"' = false := by decide
  have htrim : trimSpace ('"' :: (v ++ ['"'])) = '"' :: (v ++ ['"']) := by
    refine trimSpace_of_no_space _ ?_
    intro c hc
    rcases List.mem_cons.mp hc with h | h
    · rw [h]; exact hq
    · rcases List.mem_append.mp h with h2 | h2
      · exact (hv c h2).2
      · rw [List.mem_singleton.mp h2]; exact hq
  rw [htrim]
  have htq : trimQuotes ('"' :: (v ++ ['"'])) = v := by
    unfold trimQuotes
    rw [List.dropWhile_cons_of_pos (by simp)]
    cases hvv : v with
    | nil => simp
    | cons a t =>
      have hvfalse : ∀ c ∈ (a :: t), (decide (c = '"')) = false := by
        intro c hc
        simp [(hv c (by rw [hvv]; exact hc)).1]
      have step1 : List.dropWhile (fun x => decide (x = '"')) ((a :: t) ++ ['"']) =
          (a :: t) ++ ['"'] := by
        rw [List.dropWhile_append, dropWhile_all_false _ (a :: t) hvfalse]
        simp
      have step2 : ((a :: t) ++ ['"']).reverse = '"' :: (a :: t).reverse := by simp
      rw [step1, step2, List.dropWhile_cons_of_pos (by simp),
        dropWhile_all_false _ (a :: t).reverse
          (fun c hc => hvfalse c (List.mem_reverse.mp hc)),
        List.reverse_reverse]
  rw [htq]
  rfl

/-- Witness for C8: `path="/a,b"` is the single label `path = /a,b`. -/
theorem claim_c8_witness :
    (∀ c ∈ ['p', 'a', 't', 'h'], c ≠ '"' ∧ c ≠ ',' ∧ c ≠ '=' ∧ isGoSpace c = false) ∧
    (∀ c ∈ ['/', 'a', ',', 'b'], c ≠ '"' ∧ isGoSpace c = false) ∧
    parseLabels (String.mk (['p', 'a', 't', 'h'] ++ '=' :: '"' :: (['/', 'a', ',', 'b'] ++ ['"']))) =
      .ok [("path", "/a,b")] :=
  ⟨by decide, by decide,
    claim_c8_quoted_comma_one_label ['p', 'a', 't', 'h'] ['/', 'a', ',', 'b']
      (by decide) (by decide)⟩

/-! ## Decoder success and failure characterization (C6, C7) -/

/-- All label segments of a body, as the decoder checks them: each must
contain an `=`. -/
def segsOk (b : String) : Bool :=
  (splitLabels b.toList).all (fun s => s.contains '=')

/-- Computing `Except.isOk` on an error. -/
theorem isOk_error {ε α : Type} (e : ε) : (Except.error e : Except ε α).isOk = false := rfl

/-- Computing `Except.isOk` on a success. -/
theorem isOk_ok {ε α : Type} (a : α) : (Except.ok a : Except ε α).isOk = true := rfl

/-- Loop `parseLabelsGo` succeeds exactly when every segment contains `=`. -/
theorem parseLabelsGo_isOk (segs : List (List Char)) :
    ∀ acc, (parseLabelsGo segs acc).isOk = segs.all (fun s => s.contains '=') := by
  induction segs with
  | nil => intro acc; rfl
  | cons s t ih =>
    intro acc
    by_cases h : s.contains '=' = true
    · obtain ⟨kv, hkv⟩ : ∃ kv, splitEq s = some kv := by
        unfold splitEq
        rw [if_pos h]
        exact ⟨_, rfl⟩
      rw [parseLabelsGo_cons_some _ _ _ _ _ hkv, ih, List.all_cons, h, Bool.true_and]
    · have hf : s.contains '=' = false := eq_false_of_ne_true h
      have hn : splitEq s = none := by
        unfold splitEq
        rw [if_neg h]
      rw [parseLabelsGo_cons_none _ _ _ hn, List.all_cons, hf, Bool.false_and]
      rfl

/-- Every error of `parseLabelsGo` is `invalidLabelSyntax`, carrying a
segment of the input that has no `=`. -/
theorem parseLabelsGo_error_shape (segs : List (List Char)) :
    ∀ acc e, parseLabelsGo segs acc = .error e →
      ∃ s ∈ segs, e = .invalidLabelSyntax (String.mk s) ∧ s.contains '=' = false := by
  induction segs with
  | nil =>
    intro acc e h
    exact absurd h (by simp [parseLabelsGo])
  | cons s t ih =>
    intro acc e h
    by_cases hc : s.contains '=' = true
    · obtain ⟨kv, hkv⟩ : ∃ kv, splitEq s = some kv := by
        unfold splitEq
        rw [if_pos hc]
        exact ⟨_, rfl⟩
      rw [parseLabelsGo_cons_some _ _ _ kv.1 kv.2 (by rw [hkv])] at h
      obtain ⟨s', hs', he, hc'⟩ := ih _ e h
      exact ⟨s', List.mem_cons_of_mem _ hs', he, hc'⟩
    · have hn : splitEq s = none := by
        unfold splitEq
        rw [if_neg hc]
      rw [parseLabelsGo_cons_none _ _ _ hn] at h
      injection h with he
      exact ⟨s, List.mem_cons_self _ _, he.symm, eq_false_of_ne_true hc⟩

/-- Function `parseLabels` succeeds exactly when every segment contains `=`. -/
theorem parseLabels_isOk (b : String) :
    (parseLabels b).isOk = segsOk b := by
  unfold parseLabels segsOk
  by_cases hb : b = ""
  · rw [if_pos hb, hb]
    rfl
  · rw [if_neg hb, parseLabelsGo_isOk]

/-- Every error of `parseLabels` is `invalidLabelSyntax` over a segment
without `=`. -/
theorem parseLabels_error_shape (b : String) (e : ParseErr)
    (h : parseLabels b = .error e) :
    ∃ s ∈ splitLabels b.toList,
      e = .invalidLabelSyntax (String.mk s) ∧ s.contains '=' = false := by
  unfold parseLabels at h
  by_cases hb : b = ""
  · rw [if_pos hb] at h
    exact absurd h (by simp)
  · rw [if_neg hb] at h
    exact parseLabelsGo_error_shape _ _ _ h

/-- Evaluating `parseLine` when the with-labels regex matches. -/
theorem parseLine_eq_withLabels (line n b : String) (v : Option String)
    (hm : matchWithLabels line.toList = some (n, b, v)) :
    parseLine line = (match parseLabels b with
      | .ok labels => .ok ⟨n, labels, v.getD "0", line⟩
      | .error e => .error e) := by
  unfold parseLine
  rw [hm]

/-- Evaluating `parseLine` when only the simple regex matches. -/
theorem parseLine_eq_simple (line : String) (hm : matchWithLabels line.toList = none)
    (n : String) (v : Option String) (hs : matchSimple line.toList = some (n, v)) :
    parseLine line = .ok ⟨n, [], v.getD "0", line⟩ := by
  unfold parseLine
  rw [hm, hs]

/-- Evaluating `parseLine` when neither regex matches. -/
theorem parseLine_eq_invalid (line : String) (hm : matchWithLabels line.toList = none)
    (hs : matchSimple line.toList = none) :
    parseLine line = .error (.invalidFormat line) := by
  unfold parseLine
  rw [hm, hs]

/-- Decode succeeds iff the with-labels regex matches with every label
segment carrying an `=`, or the with-labels regex fails and the simple
regex matches. -/
theorem parseLine_ok_characterization (line : String) :
    (parseLine line).isOk = true ↔
      ((∃ n b v, matchWithLabels line.toList = some (n, b, v) ∧ segsOk b = true) ∨
        (matchWithLabels line.toList = none ∧ (matchSimple line.toList).isSome = true)) := by
  cases hm : matchWithLabels line.toList with
  | some t =>
    obtain ⟨n, b, v⟩ := t
    rw [parseLine_eq_withLabels line n b v hm]
    cases hlb : parseLabels b with
    | ok m =>
      refine iff_of_true rfl (Or.inl ⟨n, b, v, rfl, ?_⟩)
      rw [← parseLabels_isOk, hlb]
      rfl
    | error e =>
      refine iff_of_false (by simp [isOk_error]) ?_
      rintro (⟨n', b', v', hm', hsg⟩ | ⟨hnone, _⟩)
      · injection hm' with h2
        injection h2 with h3 h4
        injection h4 with h5 h6
        rw [← h5, ← parseLabels_isOk, hlb] at hsg
        exact absurd hsg (by simp [isOk_error])
      · exact absurd hnone (by simp)
  | none =>
    cases hs : matchSimple line.toList with
    | some t =>
      obtain ⟨n, v⟩ := t
      rw [parseLine_eq_simple line hm n v hs]
      exact iff_of_true rfl (Or.inr ⟨rfl, rfl⟩)
    | none =>
      rw [parseLine_eq_invalid line hm hs]
      refine iff_of_false (by simp [isOk_error]) ?_
      rintro (⟨n', b', v', hm', _⟩ | ⟨_, hsome⟩)
      · exact absurd hm' (by simp)
      · exact absurd hsome (by simp)

/-- Decode fails with `invalidFormat` (carrying the line itself) iff
neither regex matches. -/
theorem parseLine_invalidFormat_characterization (line : String) :
    parseLine line = .error (.invalidFormat line) ↔
      (matchWithLabels line.toList = none ∧ matchSimple line.toList = none) := by
  cases hm : matchWithLabels line.toList with
  | some t =>
    obtain ⟨n, b, v⟩ := t
    rw [parseLine_eq_withLabels line n b v hm]
    cases hlb : parseLabels b with
    | ok m =>
      exact iff_of_false (by simp) (by rintro ⟨hnone, _⟩; simp at hnone)
    | error e =>
      refine iff_of_false ?_ (by rintro ⟨hnone, _⟩; simp at hnone)
      intro h
      obtain ⟨s, _, he, _⟩ := parseLabels_error_shape b e hlb
      rw [he] at h
      simp at h
  | none =>
    cases hs : matchSimple line.toList with
    | some t =>
      obtain ⟨n, v⟩ := t
      rw [parseLine_eq_simple line hm n v hs]
      exact iff_of_false (by simp) (by rintro ⟨_, hnone⟩; simp at hnone)
    | none =>
      rw [parseLine_eq_invalid line hm hs]
      exact iff_of_true rfl ⟨rfl, rfl⟩

/-- The loop of `Parse` steps over a skipped line. -/
theorem parseAll_cons_skip (line : String) (rest : List String) (i : Nat)
    (h : skipLine line = true) :
    parseAll (line :: rest) i = parseAll rest (i + 1) := by
  have hp : String.mk (trimSpace line.toList) = "" ∨
      hasPrefixHash (trimSpace line.toList) = true := by
    unfold skipLine at h
    rcases Bool.or_eq_true_iff.mp h with h1 | h1
    · exact Or.inl (of_decide_eq_true h1)
    · exact Or.inr h1
  simp only [parseAll]
  rw [if_pos hp]

/-- The loop of `Parse` aborts on the first failing line, reporting its
1-based index. -/
theorem parseAll_cons_error (line : String) (rest : List String) (i : Nat) (e : ParseErr)
    (h : skipLine line = false)
    (he : parseLine (String.mk (trimSpace line.toList)) = .error e) :
    parseAll (line :: rest) i = .error (.lineError i e) := by
  have hp : ¬(String.mk (trimSpace line.toList) = "" ∨
      hasPrefixHash (trimSpace line.toList) = true) := by
    unfold skipLine at h
    rcases Bool.or_eq_false_iff.mp h with ⟨h1, h2⟩
    rintro (h3 | h3)
    · rw [decide_eq_true h3] at h1
      simp at h1
    · rw [h3] at h2
      simp at h2
  simp only [parseAll]
  rw [if_neg hp, he]

/-- The loop of `Parse` keeps going over a successfully decoded line. -/
theorem parseAll_cons_ok (line : String) (rest : List String) (i : Nat) (m : Metric)
    (h : skipLine line = false)
    (hm : parseLine (String.mk (trimSpace line.toList)) = .ok m) :
    parseAll (line :: rest) i = (parseAll rest (i + 1)).map (m :: ·) := by
  have hp : ¬(String.mk (trimSpace line.toList) = "" ∨
      hasPrefixHash (trimSpace line.toList) = true) := by
    unfold skipLine at h
    rcases Bool.or_eq_false_iff.mp h with ⟨h1, h2⟩
    rintro (h3 | h3)
    · rw [decide_eq_true h3] at h1
      simp at h1
    · rw [h3] at h2
      simp at h2
  simp only [parseAll]
  rw [if_neg hp, hm]

/-- Lines that are skipped or decode fine pass an error of the suffix
through, shifting the reported line number by their count. -/
theorem parseAll_append_clean (pre : List String)
    (h : ∀ l ∈ pre, skipLine l = true ∨
      (parseLine (String.mk (trimSpace l.toList))).isOk = true) :
    ∀ (suffix : List String) (i : Nat) (e' : TopErr),
      parseAll suffix (i + pre.length) = .error e' →
      parseAll (pre ++ suffix) i = .error e' := by
  induction pre with
  | nil =>
    intro suffix i e' hs
    simpa using hs
  | cons l t ih =>
    intro suffix i e' hs
    simp only [List.length_cons] at hs
    have harr : i + (t.length + 1) = (i + 1) + t.length := by omega
    rw [harr] at hs
    cases hsl : skipLine l with
    | true =>
      rw [List.cons_append, parseAll_cons_skip l _ i hsl]
      exact ih (fun x hx => h x (List.mem_cons_of_mem _ hx)) suffix (i + 1) e' hs
    | false =>
      rcases h l (List.mem_cons_self l t) with hskip | hok
      · rw [hsl] at hskip
        exact absurd hskip (by simp)
      · cases hpm : parseLine (String.mk (trimSpace l.toList)) with
        | error e0 =>
          rw [hpm] at hok
          exact absurd hok (by simp [isOk_error])
        | ok m =>
          rw [List.cons_append, parseAll_cons_ok l _ i m hsl hpm,
            ih (fun x hx => h x (List.mem_cons_of_mem _ hx)) suffix (i + 1) e' hs]
          rfl

/-- Modelled from the spec (§4.1): one label-list entry is a
`key="value"` pair — a nonempty key free of quote, comma and `=`, then
`=`, then a double-quoted value free of quotes. -/
def specPairOk (seg : List Char) : Bool :=
  match seg.dropWhile (· ≠ '=') with
  | '=' :: '"' :: rest =>
    (match rest.reverse with
     | '"' :: vrev =>
       decide (seg.takeWhile (· ≠ '=') ≠ []) &&
         vrev.all (fun c => decide (c ≠ '"')) &&
         (seg.takeWhile (· ≠ '=')).all (fun c => decide (c ≠ '"') && decide (c ≠ ','))
     | _ => false)
  | _ => false

/-- Modelled from the spec (§4.1, form (a)): the WHOLE line is
`<name>{<label-list>}` optionally followed by whitespace and a value —
nothing after it — where label-list is comma-separated quoted pairs
(split quote-aware). -/
def specFormA (line : String) : Bool :=
  match line.toList with
  | [] => false
  | c :: rest =>
    if isNameStart c then
      match rest.dropWhile isNameChar with
      | '{' :: r2 =>
        (match r2.dropWhile (· ≠ '}') with
         | '}' :: r3 =>
           (splitLabels (r2.takeWhile (· ≠ '}'))).all specPairOk &&
             (decide (r3 = []) ||
               (decide (r3.takeWhile isReSpace ≠ []) &&
                 decide ((r3.dropWhile isReSpace).takeWhile isValueChar ≠ []) &&
                 decide ((r3.dropWhile isReSpace).dropWhile isValueChar = [])))
         | _ => false)
      | _ => false
    else false

/-- Modelled from the spec (§4.1, form (b)): `<name>[ <value>]` matching
the whole line — which coincides with the decoder's fully anchored simple
regex. -/
def specFormB (line : String) : Bool :=
  (matchSimple line.toList).isSome

/-- C6 is false as stated: the one-line input `bad{label=nofoo} 1` — the
spec's own scenario for `InvalidLabelSyntax` — decodes successfully: the
decoder accepts unquoted label values (quotes are only stripped when
present), and the segment `label=nofoo` does contain an `=`. -/
theorem claim_c6_counterexample :
    parseLine "bad{label=nofoo} 1" =
      .ok ⟨"bad", [("label", "nofoo")], "1", "bad{label=nofoo} 1"⟩ ∧
    (Parse "bad{label=nofoo} 1").isOk = true :=
  ⟨by rfl, by rfl⟩

/-- C6 as amended: for every line, decoding fails with
`InvalidLabelSyntax` exactly when the with-labels recognizer matches the
line and some label segment of its body contains no `=` character.
Unquoted values and unbalanced quotes are accepted; lines the recognizer
does not match never produce this error. -/
theorem claim_c6_label_error_exact (line : String) :
    (∃ p, parseLine line = .error (.invalidLabelSyntax p)) ↔
      (∃ n b v, matchWithLabels line.toList = some (n, b, v) ∧ segsOk b = false) := by
  cases hm : matchWithLabels line.toList with
  | some t =>
    obtain ⟨n, b, v⟩ := t
    rw [parseLine_eq_withLabels line n b v hm]
    cases hlb : parseLabels b with
    | ok m =>
      refine iff_of_false ?_ ?_
      · rintro ⟨p, hp⟩
        simp at hp
      · rintro ⟨n', b', v', hm', hf⟩
        injection hm' with h2
        injection h2 with h3 h4
        injection h4 with h5 h6
        rw [← h5, ← parseLabels_isOk, hlb] at hf
        simp [isOk_ok] at hf
    | error e =>
      refine iff_of_true ?_ ?_
      · obtain ⟨s, _, he, _⟩ := parseLabels_error_shape b e hlb
        exact ⟨String.mk s, by rw [he]⟩
      · exact ⟨n, b, v, rfl, by rw [← parseLabels_isOk, hlb, isOk_error]⟩
  | none =>
    refine iff_of_false ?_ ?_
    · rintro ⟨p, hp⟩
      cases hs : matchSimple line.toList with
      | some t2 =>
        obtain ⟨n2, v2⟩ := t2
        rw [parseLine_eq_simple line hm n2 v2 hs] at hp
        simp at hp
      | none =>
        rw [parseLine_eq_invalid line hm hs] at hp
        simp at hp
    · rintro ⟨n', b', v', hm', _⟩
      simp at hm'

/-- Witness for the amended C6: `a{b} 1` has a segment with no `=`, and
the characterization yields the `InvalidLabelSyntax` failure there. -/
theorem claim_c6_witness :
    ∃ p, parseLine "a{b} 1" = .error (.invalidLabelSyntax p) :=
  (claim_c6_label_error_exact "a{b} 1").mpr ⟨"a", "b", some "1", by rfl, by rfl⟩

/-- C7 is false as stated, in two ways.  (1) The with-labels regex is not
anchored on the right: the line `foo{a="b"} 1 junk` decodes successfully
although it matches neither spec form as a whole line.  (2) Line numbers
count lines of the whitespace-TRIMMED input, not of the original input:
for the input consisting of an empty first line and the bad second line
`bad !`, the error reports line 1, though the failing line is the second
line of the original input. -/
theorem claim_c7_counterexample :
    ((parseLine (String.mk
        ['f', 'o', 'o', '{', 'a', '=', '"', 'b', '"', '}', ' ', '1', ' ', 'j', 'u', 'n', 'k'])).isOk = true ∧
      specFormA (String.mk
        ['f', 'o', 'o', '{', 'a', '=', '"', 'b', '"', '}', ' ', '1', ' ', 'j', 'u', 'n', 'k']) = false ∧
      specFormB (String.mk
        ['f', 'o', 'o', '{', 'a', '=', '"', 'b', '"', '}', ' ', '1', ' ', 'j', 'u', 'n', 'k']) = false) ∧
    (Parse "\nbad !" = .error (.lineError 1 (.invalidFormat "bad !")) ∧
      splitNl ("\nbad !".toList) = ["", "bad !"]) :=
  ⟨⟨by rfl, by rfl, by rfl⟩, by rfl, by rfl⟩

/-- C7 as amended: decode succeeds iff the (left-anchored) with-labels
recognizer matches a prefix of the line with every label segment carrying
an `=`, or it fails and the fully anchored simple recognizer matches;
when neither matches, the failure is `InvalidFormat`, and `Parse` reports
the 1-based number of the failing line within the whitespace-trimmed
input. -/
theorem claim_c7_decode_characterization :
    (∀ line : String,
      (parseLine line).isOk = true ↔
        ((∃ n b v, matchWithLabels line.toList = some (n, b, v) ∧ segsOk b = true) ∨
          (matchWithLabels line.toList = none ∧ (matchSimple line.toList).isSome = true))) ∧
    (∀ line : String,
      parseLine line = .error (.invalidFormat line) ↔
        (matchWithLabels line.toList = none ∧ matchSimple line.toList = none)) ∧
    (∀ (pre : List String) (line : String) (rest : List String) (e : ParseErr),
      (∀ l ∈ pre, skipLine l = true ∨
        (parseLine (String.mk (trimSpace l.toList))).isOk = true) →
      skipLine line = false →
      parseLine (String.mk (trimSpace line.toList)) = .error e →
      parseAll (pre ++ line :: rest) 1 = .error (.lineError (pre.length + 1) e)) := by
  refine ⟨parseLine_ok_characterization, parseLine_invalidFormat_characterization, ?_⟩
  intro pre line rest e hpre hskip herr
  have h1 : parseAll (line :: rest) (1 + pre.length) =
      .error (.lineError (1 + pre.length) e) :=
    parseAll_cons_error line rest (1 + pre.length) e hskip herr
  have h2 := parseAll_append_clean pre hpre (line :: rest) 1 _ h1
  have hcomm : 1 + pre.length = pre.length + 1 := Nat.add_comm 1 pre.length
  rw [hcomm] at h2
  exact h2

/-- Witness for the amended C7: a comment line and a good line precede a
bad third line, and the error carries line number 3. -/
theorem claim_c7_witness :
    (∀ l ∈ ["# note", "up 5"], skipLine l = true ∨
      (parseLine (String.mk (trimSpace l.toList))).isOk = true) ∧
    skipLine "!!" = false ∧
    parseLine (String.mk (trimSpace "!!".toList)) = .error (.invalidFormat "!!") ∧
    parseAll (["# note", "up 5"] ++ "!!" :: []) 1 =
      .error (.lineError 3 (.invalidFormat "!!")) :=
  ⟨by decide, by rfl, by rfl,
    claim_c7_decode_characterization.2.2 ["# note", "up 5"] "!!" [] (.invalidFormat "!!")
      (by decide) (by rfl) (by rfl)⟩

end GT
